import Mathlib

/-!
Verification of the transcript reconciliation engine of `src/speacher/transcription.py`.

The Python module is shallowly embedded below.  Conventions used throughout:

* Python `float` values appearing in payloads (segment and item times, Azure
  tick counts, GCP seconds) are modelled as rationals `ℚ`; every such value in
  the payloads originates from a decimal literal, and all arithmetic performed
  on them (division by constants, `// 60`, `% 60`, comparisons) is exact on
  these inputs, so the embedding is order- and value-faithful.
* A field that is absent, or present with a Python-falsy value, is modelled as
  `none` / `[]` when the code only ever tests it for truthiness.
* Python exceptions (`KeyError` / `IndexError` raised by bare subscripts such
  as `item["alternatives"][0]`) are modelled with `Except Unit`; the
  enclosing `try`/`except` blocks that convert them to `False` are modelled at
  the boundary functions.
* `print` output and the optional file sink are not modelled (pure I/O); the
  functions below return the transcript lines the code would print/write.
-/

deriving instance DecidableEq for Except

namespace Speecher

/-- One entry of an AWS item's `alternatives` array (`confidence`, `content`);
`content` is read with `.get("content", "")`, hence a plain defaulted field. -/
structure WordAlt where
  confidence : Option String := none
  content : String := ""
deriving DecidableEq

/-- An AWS `results.items` element.  `start_time`/`end_time` are the parsed
float values; `none` stands for a missing (or falsy) field.  `alternatives`
as `[]` stands for a missing or empty array: the code treats these two the
same everywhere (truthiness tests, and the bare `["alternatives"][0]`
subscript raises on both). -/
structure RawItem where
  type : Option String := none
  start_time : Option ℚ := none
  end_time : Option ℚ := none
  alternatives : List WordAlt := []
deriving DecidableEq

/-- An AWS `speaker_labels.segments` element (times already parsed). -/
structure SpeakerSeg where
  speaker_label : String
  start_time : ℚ
  end_time : ℚ
deriving DecidableEq

/-- The normalized segment dict built by `process_aws_transcription_with_speakers`. -/
structure NormSeg where
  speaker : String
  text : String
  start_time : ℚ
  end_time : ℚ
deriving DecidableEq

/-- Helper for `pySplit`: the first component accumulates the current word in
reverse. -/
def pySplitAux : List Char → List Char → List String
  | acc, [] => match acc with | [] => [] | _ :: _ => [String.mk acc.reverse]
  | acc, c :: cs =>
    if c.isWhitespace then
      match acc with
      | [] => pySplitAux [] cs
      | _ :: _ => String.mk acc.reverse :: pySplitAux [] cs
    else pySplitAux (c :: acc) cs

/-- Python `text.split()` (split on whitespace runs, dropping empty chunks). -/
def pySplit (s : String) : List String :=
  pySplitAux [] s.data

/-- Python `sep.join(l)`. -/
def joinSep (sep : String) : List String → String
  | [] => ""
  | [x] => x
  | x :: y :: rest => x ++ sep ++ joinSep sep (y :: rest)

/-- Python `text[0].upper() + text[1:]` guarded by `if text`; ASCII upcasing
(the payload texts proved about here are ASCII). -/
def pyCapitalize (s : String) : String :=
  match s.data with
  | [] => s
  | c :: cs => String.mk (Char.toUpper c :: cs)

/-- The literal list `[".", "!", "?", ",", ";", ":", "-"]` from the source. -/
def sentenceEnders : List Char := ['.', '!', '?', ',', ';', ':', '-']

/-- `if text and text[-1] not in [".","!","?",",",";",":","-"]: text += "."`. -/
def addFinalPeriod (s : String) : String :=
  match s.data.getLast? with
  | none => s
  | some c => if sentenceEnders.contains c then s else s ++ "."

/-- The four-step text cleanup the source repeats verbatim in all three tiers:
join with spaces, collapse repeated whitespace, capitalize, terminate. -/
def formatText (elems : List String) : String :=
  addFinalPeriod (pyCapitalize (joinSep " " (pySplit (joinSep " " elems))))

/-- `toString` padded to width ≥ 2 with a leading zero, i.e. `f"{n:02d}"`. -/
def padInt2 (n : ℤ) : String :=
  let s := toString n
  if s.length < 2 then "0" ++ s else s

/-- Three-digit zero padding for the millisecond part. -/
def pad3 (n : ℕ) : String :=
  if n < 10 then "00" ++ toString n
  else if n < 100 then "0" ++ toString n
  else toString n

/-- Python float `%` (for our nonnegative dividends and positive divisors):
`a - b * (a // b)`. -/
def qmod (a b : ℚ) : ℚ := a - b * (Int.floor (a / b) : ℤ)

/-- Python `f"{q:06.3f}"` for `0 ≤ q < 100`: the value rounded to three
decimals, seconds part zero-padded to two digits.  (At exact half-millisecond
ties Python rounds the underlying binary float to even; no input proved about
below sits on such a tie.) -/
def fmt063 (q : ℚ) : String :=
  let m : ℕ := (round (q * 1000) : ℤ).toNat
  padInt2 (m / 1000) ++ "." ++ pad3 (m % 1000)

/-- The `HH:MM:SS.mmm` formatter inlined by the simple-AWS, Azure, and GCP
renderers: `int(t // 3600)`, `int((t % 3600) // 60)`, `t % 60` with `:06.3f`. -/
def fmtHMS (t : ℚ) : String :=
  padInt2 (Int.floor (t / 3600)) ++ ":" ++ padInt2 (Int.floor (qmod t 3600 / 60)) ++ ":"
    ++ fmt063 (qmod t 60)

/-- The AWS-diarized renderer's time string (lines 305-307):
`minutes = int(start_time // 60)`, `seconds = start_time % 60`,
`f"[{minutes:02d}:{seconds:06.3f}]"`.  Note: minutes, not hours/minutes. -/
def awsSpeakerTimeStr (t : ℚ) : String :=
  "[" ++ padInt2 (Int.floor (t / 60)) ++ ":" ++ fmt063 (qmod t 60) ++ "]"

/-- Insert `a` after every element `b` with `le b a`: together with `pySort`
this is a stable sort, hence extensionally equal to Python's stable
`list.sort` for a total preorder key. -/
def insertLE {α : Type} (le : α → α → Bool) (a : α) : List α → List α
  | [] => [a]
  | b :: bs => if le b a then b :: insertLE le a bs else a :: b :: bs

/-- Stable insertion sort (structurally recursive, unlike `List.mergeSort`). -/
def pySort {α : Type} (le : α → α → Bool) (l : List α) : List α :=
  l.foldl (fun acc x => insertLE le x acc) []

/-- `item.get("type") == "punctuation"`. -/
def isPunct (it : RawItem) : Bool := it.type = some "punctuation"

/-- The tier-1 per-item admission test (lines 106-119): not punctuation, both
times present (truthy), and `segment_start <= item_start and item_end <= segment_end`. -/
def wordInRange (s e : ℚ) (it : RawItem) : Bool :=
  !(isPunct it) && it.start_time.isSome && it.end_time.isSome
    && decide (s ≤ it.start_time.getD 0) && decide (it.end_time.getD 0 ≤ e)

/-- The words collected for one speaker segment. -/
def segmentItems (items : List RawItem) (s e : ℚ) : List RawItem :=
  items.filter (wordInRange s e)

/-- `segment_items.sort(key=lambda x: float(x["start_time"]))` — Python's
stable sort, modelled with the stable `pySort`. -/
def itemLE (a b : RawItem) : Bool :=
  decide (a.start_time.getD 0 ≤ b.start_time.getD 0)

def sortedSegmentItems (items : List RawItem) (s e : ℚ) : List RawItem :=
  pySort itemLE (segmentItems items s e)

/-- Lines 136-137 (also 229-231): if the raw item one past `idx` exists and is
punctuation, fetch `["alternatives"][0].get("content","")` — the bare
subscripts raise when `alternatives` is missing or empty. -/
def punctAfter (items : List RawItem) (idx : ℕ) : Except Unit (Option String) :=
  match items[idx + 1]? with
  | some nxt =>
    if isPunct nxt then
      match nxt.alternatives with
      | [] => .error ()
      | a :: _ => .ok (some a.content)
    else .ok none
  | none => .ok none

/-- Appending a punctuation token to a word with no separating space. -/
def tokenText (content : String) : Option String → String
  | some pc => content ++ pc
  | none => content

/-- Tier-1 token list (lines 125-139): skip words with no alternatives, else
emit the content, with the punctuation found one past
`items.index(segment_item)` — the index of the first *equal* item — glued on. -/
def finalTextElements (items : List RawItem) : List RawItem → Except Unit (List String)
  | [] => .ok []
  | it :: rest =>
    match it.alternatives with
    | [] => finalTextElements items rest
    | a :: _ =>
      match punctAfter items (items.indexOf it) with
      | .error e => .error e
      | .ok p =>
        match finalTextElements items rest with
        | .error e => .error e
        | .ok toks => .ok (tokenText a.content p :: toks)

/-- Tier-1 treatment of one speaker segment (lines 97-159): a normalized
segment when at least one token was collected, nothing otherwise. -/
def tier1Segment (items : List RawItem) (seg : SpeakerSeg) : Except Unit (Option NormSeg) :=
  match finalTextElements items (sortedSegmentItems items seg.start_time seg.end_time) with
  | .error e => .error e
  | .ok [] => .ok none
  | .ok (e :: es) =>
    .ok (some ⟨seg.speaker_label, formatText (e :: es), seg.start_time, seg.end_time⟩)

/-- Tier 1: interval matching over all speaker segments, in input order. -/
def tier1 (items : List RawItem) : List SpeakerSeg → Except Unit (List NormSeg)
  | [] => .ok []
  | seg :: rest =>
    match tier1Segment items seg with
    | .error e => .error e
    | .ok r =>
      match tier1 items rest with
      | .error e => .error e
      | .ok rs => .ok (match r with | some n => n :: rs | none => rs)

/-- `if all_words: all_words[-1] += word` — concatenate onto the last element. -/
def appendToLast : List String → String → List String
  | [], _ => []
  | [x], s => [x ++ s]
  | x :: y :: rest, s => x :: appendToLast (y :: rest) s

/-- Tier-2 inner item scan (lines 209-231), `i` tracking `enumerate(items)`:
a time-less punctuation item is glued onto the current buffer tail (raising if
it has no alternatives and the buffer is nonempty); other time-less items are
skipped; a timed item inside the segment interval contributes its content plus
any immediately-following punctuation. -/
def t2Items (items : List RawItem) (sS sE : ℚ) : ℕ → List RawItem → List String →
    Except Unit (List String)
  | _, [], elems => .ok elems
  | i, it :: rest, elems =>
    if it.start_time.isNone && isPunct it then
      match elems with
      | [] => t2Items items sS sE (i + 1) rest elems
      | _ :: _ =>
        match it.alternatives with
        | [] => .error ()
        | a :: _ => t2Items items sS sE (i + 1) rest (appendToLast elems a.content)
    else if it.start_time.isNone || it.end_time.isNone then
      t2Items items sS sE (i + 1) rest elems
    else if decide (sS ≤ it.start_time.getD 0) && decide (it.end_time.getD 0 ≤ sE) then
      match it.alternatives with
      | [] => t2Items items sS sE (i + 1) rest elems
      | a :: _ =>
        match punctAfter items i with
        | .error e => .error e
        | .ok p => t2Items items sS sE (i + 1) rest (elems ++ [tokenText a.content p])
    else
      t2Items items sS sE (i + 1) rest elems

/-- The running state of tier 2: current speaker, text buffer, running start
and end times, and segments flushed so far. -/
structure T2State where
  speaker : Option String := none
  elems : List String := []
  startT : Option ℚ := none
  endT : Option ℚ := none
  acc : List NormSeg := []
deriving DecidableEq

/-- Lines 178-200: flush the buffered utterance when the speaker changes and
the buffer is nonempty.  Only the buffer is cleared — the running start and
end times are kept. -/
def t2Flush (st : T2State) (newSpeaker : String) : T2State :=
  match st.speaker with
  | none => st
  | some sp =>
    if sp ≠ newSpeaker ∧ st.elems ≠ [] then
      { st with
        acc := st.acc ++ [⟨sp, formatText st.elems, st.startT.getD 0, st.endT.getD 0⟩]
        elems := [] }
    else st

/-- One tier-2 segment step (lines 172-231): flush on speaker switch, adopt
the new speaker, set the running start time only when it is still unset
(line 204-205), always overwrite the running end time, then scan the items. -/
def t2Seg (items : List RawItem) (st : T2State) (seg : SpeakerSeg) : Except Unit T2State :=
  match t2Items items seg.start_time seg.end_time 0 items (t2Flush st seg.speaker_label).elems with
  | .error e => .error e
  | .ok elems =>
    .ok { speaker := some seg.speaker_label
          elems := elems
          startT :=
            match (t2Flush st seg.speaker_label).startT with
            | none => some seg.start_time
            | some q => some q
          endT := some seg.end_time
          acc := (t2Flush st seg.speaker_label).acc }

/-- The tier-2 loop over speaker segments. -/
def t2Loop (items : List RawItem) : T2State → List SpeakerSeg → Except Unit T2State
  | st, [] => .ok st
  | st, seg :: rest =>
    match t2Seg items st seg with
    | .error e => .error e
    | .ok st2 => t2Loop items st2 rest

/-- Tier 2 (lines 161-255): chronological speaker-switch grouping, with the
final nonempty buffer flushed after the loop (lines 233-255). -/
def tier2 (items : List RawItem) (segs : List SpeakerSeg) : Except Unit (List NormSeg) :=
  match t2Loop items {} segs with
  | .error e => .error e
  | .ok st =>
    match st.speaker, st.elems with
    | some sp, e :: es =>
      .ok (st.acc ++ [⟨sp, formatText (e :: es), st.startT.getD 0, st.endT.getD 0⟩])
    | _, _ => .ok st.acc

/-- Tier-3 word collection (lines 262-274): every item with alternatives in
file order, punctuation glued onto the previous word (dropped if first). -/
def allWords (items : List RawItem) : List String :=
  items.foldl
    (fun acc it =>
      match it.alternatives with
      | [] => acc
      | a :: _ =>
        if isPunct it then
          match acc with
          | [] => acc
          | _ :: _ => appendToLast acc a.content
        else acc ++ [a.content])
    []

/-- Tier 3 (lines 257-290): one generic segment at `0.0`-`0.0`, or nothing. -/
def tier3 (items : List RawItem) : List NormSeg :=
  match allWords items with
  | [] => []
  | w :: ws => [⟨"Speaker", formatText (w :: ws), 0, 0⟩]

/-- `chronological_segments.sort(key=lambda x: x["start_time"])`. -/
def segLE (a b : NormSeg) : Bool := decide (a.start_time ≤ b.start_time)

/-- The three-tier fallback chain plus the final chronological sort
(lines 96-293): tier 2 is evaluated only when tier 1 produced nothing, tier 3
only when tier 2 also produced nothing. -/
def awsSegments (items : List RawItem) (segs : List SpeakerSeg) : Except Unit (List NormSeg) :=
  match tier1 items segs with
  | .error e => .error e
  | .ok (n :: t1) => .ok (pySort segLE (n :: t1))
  | .ok [] =>
    match tier2 items segs with
    | .error e => .error e
    | .ok (n :: t2) => .ok (pySort segLE (n :: t2))
    | .ok [] => .ok (pySort segLE (tier3 items))

/-- Line 303-315: one printed/persisted line per normalized segment. -/
def renderSegLine (include_timestamps : Bool) (n : NormSeg) : String :=
  if include_timestamps then awsSpeakerTimeStr n.start_time ++ " " ++ n.speaker ++ ": " ++ n.text
  else n.speaker ++ ": " ++ n.text

/-- The transcript lines of `process_aws_transcription_with_speakers`. -/
def awsTranscriptLines (items : List RawItem) (segs : List SpeakerSeg)
    (include_timestamps : Bool) : Except Unit (List String) :=
  match awsSegments items segs with
  | .error e => .error e
  | .ok cs => .ok (cs.map (renderSegLine include_timestamps))

/-- The boolean `process_aws_transcription_with_speakers` hands back: `False`
on an empty segment list (lines 297-299) and on any caught exception
(lines 328-338), `True` otherwise (the optional file sink is not modelled). -/
def processAwsSpeakersBool (items : List RawItem) (segs : List SpeakerSeg) : Bool :=
  match awsSegments items segs with
  | .error _ => false
  | .ok [] => false
  | .ok (_ :: _) => true

/-- AWS simple payload (`results.transcripts` / `results.items`); each
transcripts entry is read with `.get("transcript", "")`. -/
structure AwsSimpleData where
  transcripts : List String := []
  items : List RawItem := []
deriving DecidableEq

/-- One line of `process_aws_transcription_simple` (lines 359-376): the
interval in `HH:MM:SS.mmm` followed by the word, with missing times read as
`0` via `.get("start_time", 0)`. -/
def awsSimpleItemLine (it : RawItem) : String :=
  "[" ++ fmtHMS (it.start_time.getD 0) ++ " - " ++ fmtHMS (it.end_time.getD 0) ++ "] "
    ++ ((it.alternatives.headD {}).content)

/-- `process_aws_transcription_simple` (lines 341-399), as the transcript
lines it prints/writes, `none` when it returns `False` for lack of a
transcripts entry. -/
def processAwsSimple (d : AwsSimpleData) (include_timestamps : Bool) : Option (List String) :=
  match d.transcripts with
  | [] => none
  | t :: _ =>
    if include_timestamps && !d.items.isEmpty then
      some ((d.items.filter fun it => it.type = some "pronunciation").map awsSimpleItemLine)
    else
      some [t]

/-- One `combinedRecognizedPhrases` entry, read with `.get("display", "")`. -/
structure CombinedPhrase where
  display : String := ""
deriving DecidableEq

/-- One `nBest` candidate, read with `.get("display", "")`. -/
structure NBestEntry where
  display : String := ""
deriving DecidableEq

/-- One `recognizedPhrases` entry; `offset`/`duration` are the raw
100-nanosecond tick counts, defaulted to `0` by `.get(..., 0)`. -/
structure AzurePhrase where
  recognitionStatus : Option String := none
  nBest : List NBestEntry := []
  offset : ℚ := 0
  duration : ℚ := 0
deriving DecidableEq

/-- The Azure payload fields the flattener reads. -/
structure AzureData where
  combinedRecognizedPhrases : List CombinedPhrase := []
  recognizedPhrases : List AzurePhrase := []
deriving DecidableEq

/-- Lines 423-442: the line for one successful phrase; ticks are converted to
seconds by dividing by 10,000,000 when timestamps are requested. -/
def azurePhraseLine (include_timestamps : Bool) (p : AzurePhrase) (nb : NBestEntry) : String :=
  if include_timestamps then
    "[" ++ fmtHMS (p.offset / 10000000) ++ " - "
      ++ fmtHMS (p.offset / 10000000 + p.duration / 10000000) ++ "] " ++ nb.display
  else nb.display

/-- The Azure flattener's line accumulation (lines 405-444). -/
def azureLines (d : AzureData) (include_timestamps : Bool) : List String :=
  if !d.combinedRecognizedPhrases.isEmpty then
    d.combinedRecognizedPhrases.map fun p => p.display
  else if !d.recognizedPhrases.isEmpty then
    d.recognizedPhrases.foldl
      (fun acc p =>
        if p.recognitionStatus = some "Success" then
          match p.nBest with
          | [] => acc
          | nb :: _ => acc ++ [azurePhraseLine include_timestamps p nb]
        else acc)
      []
  else []

/-- `process_azure_transcription` (lines 402-468): `none` models the `False`
returned when no line was produced (line 446-448). -/
def processAzure (d : AzureData) (include_timestamps : Bool) : Option (List String) :=
  match azureLines d include_timestamps with
  | [] => none
  | l :: ls => some (l :: ls)

/-- The boolean `process_azure_transcription` hands back to the dispatcher
(the optional file sink is not modelled). -/
def processAzureBool (d : AzureData) (include_timestamps : Bool) : Bool :=
  (processAzure d include_timestamps).isSome

/-- One GCP word entry.  The source normalizes `startTime`/`endTime` from
either a `{seconds, nanos}` pair (`seconds + nanos / 1e9`) or an
`"<x>s"` string (`float(value.rstrip("s"))`) to one float; the embedding
carries that normalized value directly (no claim touches the decoding). -/
structure GcpWord where
  word : String := ""
  startTime : ℚ := 0
  endTime : ℚ := 0
deriving DecidableEq

/-- One GCP alternative; `words = none` models an absent `words` key
(the code tests `"words" in alternatives[0]`). -/
structure GcpAlt where
  transcript : String := ""
  words : Option (List GcpWord) := none
deriving DecidableEq

/-- One GCP `results` entry. -/
structure GcpResult where
  alternatives : List GcpAlt := []
deriving DecidableEq

/-- Lines 519-530: the per-word timestamped line. -/
def gcpWordLine (w : GcpWord) : String :=
  "[" ++ fmtHMS w.startTime ++ " - " ++ fmtHMS w.endTime ++ "] " ++ w.word

/-- The lines contributed by a single GCP result (lines 482-533): nothing
without alternatives; per-word lines only when timestamps are requested, the
`words` key is present, and the words array is not shorter than the
whitespace-token count of the transcript — otherwise the flat transcript. -/
def gcpResultLines (include_timestamps : Bool) (r : GcpResult) : List String :=
  match r.alternatives with
  | [] => []
  | alt :: _ =>
    match include_timestamps, alt.words with
    | true, some ws =>
      if ws.length < (pySplit alt.transcript).length then [alt.transcript]
      else ws.map gcpWordLine
    | _, _ => [alt.transcript]

/-- `process_gcp_transcription` (lines 471-557): `none` models the `False`
returned for an empty results list (line 476-478) or no lines (line 535-537). -/
def processGcp (results : List GcpResult) (include_timestamps : Bool) : Option (List String) :=
  match results with
  | [] => none
  | _ :: _ =>
    match (results.map (gcpResultLines include_timestamps)).flatten with
    | [] => none
    | l :: ls => some (l :: ls)

/-- A Python value as far as the dispatcher inspects payloads: shape
(mapping / list / scalar), truthiness, key membership, and key lookup. -/
inductive PyVal where
  | pnone
  | pbool (b : Bool)
  | pnum (q : ℚ)
  | pstr (s : String)
  | plist (xs : List PyVal)
  | pdict (kvs : List (String × PyVal))

/-- Python truthiness for the shapes above. -/
def PyVal.truthy : PyVal → Bool
  | .pnone => false
  | .pbool b => b
  | .pnum q => !(decide (q = 0))
  | .pstr s => !(s = "")
  | .plist xs => !xs.isEmpty
  | .pdict kvs => !kvs.isEmpty

/-- `isinstance(v, dict)`. -/
def PyVal.isDict : PyVal → Bool
  | .pdict _ => true
  | _ => false

/-- `k in v` for a mapping. -/
def PyVal.hasKey (v : PyVal) (k : String) : Bool :=
  match v with
  | .pdict kvs => kvs.any fun kv => kv.1 = k
  | _ => false

/-- `v[k]` / `v.get(k)` as an option. -/
def PyVal.get (v : PyVal) (k : String) : Option PyVal :=
  match v with
  | .pdict kvs => (kvs.find? fun kv => kv.1 = k).map fun kv => kv.2
  | _ => none

/-- `bool(v.get(k))`: truthiness of the looked-up value, `False` when absent. -/
def PyVal.getTruthy (v : PyVal) (k : String) : Bool :=
  match v.get k with
  | some x => x.truthy
  | none => false

/-- Where `process_transcription_result` routes a payload.  The two input
rejections (lines 30-36) map to `invalidInput`; the three unknown-format error
returns (lines 58, 61, 64) map to `unrecognized`. -/
inductive ClassifyResult where
  | invalidInput
  | azure
  | gcp
  | awsSpeakers
  | awsSimple
  | unrecognized
deriving DecidableEq

/-- The dispatcher's classification logic (lines 29-65), with each
`process_*` call replaced by its route tag.  `"results" in data` followed by
`data["results"]` is modelled as one lookup. -/
def classify (d : PyVal) : ClassifyResult :=
  if !d.truthy then .invalidInput
  else if !d.isDict then .invalidInput
  else if d.hasKey "recognizedPhrases" || d.hasKey "combinedRecognizedPhrases" then .azure
  else
    match d.get "results" with
    | some r =>
      match r with
      | .plist _ => .gcp
      | .pdict _ =>
        if r.getTruthy "speaker_labels" && r.getTruthy "items" then .awsSpeakers
        else if r.getTruthy "transcripts" then .awsSimple
        else .unrecognized
      | _ => .unrecognized
    | none => .unrecognized

/-! Claim-side definitions.  Each of the following is written from the words
of the spec/claims (not from the source) and exists only to be compared with
the source-derived definitions above. -/

/-- Claim C3's collection, keeping each collected word's actual position in
the original item list (the claim reads: "for each collected word look ahead
one position in the original item list"). -/
def wordPairsInSeg (items : List RawItem) (s e : ℚ) : List (ℕ × RawItem) :=
  items.enum.filter fun p => wordInRange s e p.2

def pairLE (a b : ℕ × RawItem) : Bool := itemLE a.2 b.2

def sortedWordPairs (items : List RawItem) (s e : ℚ) : List (ℕ × RawItem) :=
  pySort pairLE (wordPairsInSeg items s e)

/-- Claim C3's token list: identical to `finalTextElements` except that the
punctuation lookahead happens at the word's own position `i`, not at
`items.index(word)`. -/
def finalTextElementsClaim (items : List RawItem) :
    List (ℕ × RawItem) → Except Unit (List String)
  | [] => .ok []
  | (i, it) :: rest =>
    match it.alternatives with
    | [] => finalTextElementsClaim items rest
    | a :: _ =>
      match punctAfter items i with
      | .error e => .error e
      | .ok p =>
        match finalTextElementsClaim items rest with
        | .error e => .error e
        | .ok toks => .ok (tokenText a.content p :: toks)

/-- Claim C3's per-segment result: collect the in-interval words, sort by
start time, glue on each word's immediately-following punctuation, then join,
collapse whitespace, capitalize, and terminate. -/
def tier1SegmentClaim (items : List RawItem) (seg : SpeakerSeg) : Except Unit (Option NormSeg) :=
  match finalTextElementsClaim items (sortedWordPairs items seg.start_time seg.end_time) with
  | .error e => .error e
  | .ok [] => .ok none
  | .ok (e :: es) =>
    .ok (some ⟨seg.speaker_label, formatText (e :: es), seg.start_time, seg.end_time⟩)

/-- Claim C5's classification chain, transcribed in the claim's order.
"containing `speaker_labels` together with `items`" / "`transcripts` alone"
are formalized as the Python truthiness tests the payload shapes admit. -/
def classifyClaim (d : PyVal) : ClassifyResult :=
  if !(d.truthy && d.isDict) then .invalidInput
  else if d.hasKey "recognizedPhrases" || d.hasKey "combinedRecognizedPhrases" then .azure
  else if (match d.get "results" with | some (.plist _) => true | _ => false) then .gcp
  else if (match d.get "results" with | some (.pdict _) => true | _ => false) then
    match d.get "results" with
    | some r =>
      if r.getTruthy "speaker_labels" && r.getTruthy "items" then .awsSpeakers
      else if r.getTruthy "transcripts" then .awsSimple
      else .unrecognized
    | none => .unrecognized
  else .unrecognized

/-- Claim C8's expected Azure output: the `Success` phrases, each rendered
from its first `nBest` candidate. -/
def azureLinesClaim (d : AzureData) (include_timestamps : Bool) : List String :=
  (d.recognizedPhrases.filter fun p => p.recognitionStatus = some "Success").map
    fun p => azurePhraseLine include_timestamps p (p.nBest.headD {})

/-- Split on a single separator character (like Python `s.split(sep)`). -/
def splitOnCharAux (c : Char) : List Char → List Char → List String
  | acc, [] => [String.mk acc.reverse]
  | acc, x :: xs =>
    if x = c then String.mk acc.reverse :: splitOnCharAux c [] xs
    else splitOnCharAux c (x :: acc) xs

def splitOnChar (c : Char) (s : String) : List String :=
  splitOnCharAux c [] s.data

/-- Decimal value of a digit string. -/
def digitsVal : List Char → ℕ → ℕ
  | [], acc => acc
  | c :: cs, acc => digitsVal cs (acc * 10 + (c.toNat - 48))

/-- A two-digit decimal field. -/
def twoDigits (s : String) : Bool :=
  s.length = 2 && s.data.all Char.isDigit

/-- A two-digit decimal field below `bound`. -/
def twoDigitsLt (s : String) (bound : ℕ) : Bool :=
  twoDigits s && decide (digitsVal s.data 0 < bound)

/-- Claim C7's seconds field: `SS` or `SS.mmm` with `SS < 60`. -/
def claimSecondsField (s : String) : Bool :=
  match splitOnChar '.' s with
  | [ss] => twoDigitsLt ss 60
  | [ss, ms] => twoDigitsLt ss 60 && ms.length = 3 && ms.data.all Char.isDigit
  | _ => false

/-- Claim C7's timestamp shape: `HH:MM:SS` or `HH:MM:SS.mmm` with two-digit
hour and minute fields and `MM < 60`, `SS < 60`. -/
def claimedTimestampFormat (s : String) : Bool :=
  match splitOnChar ':' s with
  | [hh, mm, ss] => twoDigits hh && twoDigitsLt mm 60 && claimSecondsField ss
  | _ => false

/-! Concrete payloads used by the witnesses and counterexamples below. -/

def itemHi : RawItem :=
  { type := some "pronunciation", start_time := some 0, end_time := some (2/5),
    alternatives := [{ content := "Hi" }] }

def itemDot : RawItem :=
  { type := some "punctuation", alternatives := [{ content := "." }] }

def segSpk0 : SpeakerSeg := { speaker_label := "spk_0", start_time := 0, end_time := 1 }

def itemLoHi : RawItem :=
  { type := some "pronunciation", start_time := some 0, end_time := some (2/5),
    alternatives := [{ content := "hi" }] }

def itemComma : RawItem :=
  { type := some "punctuation", alternatives := [{ content := "," }] }

def itemYo : RawItem :=
  { type := some "pronunciation", start_time := some 1, end_time := some (3/2),
    alternatives := [{ content := "yo" }] }

def segSpk0Wide : SpeakerSeg := { speaker_label := "spk_0", start_time := 0, end_time := 2 }

def itemNoAltPunct : RawItem := { type := some "punctuation" }

def segSpk1 : SpeakerSeg := { speaker_label := "spk_1", start_time := 1, end_time := 2 }

/-! Theorems.  The `Rat` arithmetic operations are `@[irreducible]` in the
library; they are made semireducible here so that concrete witnesses can be
checked by `decide`. -/

attribute [local semireducible] Rat.add Rat.mul Rat.inv Rat.sub

theorem mem_insertLE {α : Type} {le : α → α → Bool} {a x : α} (l : List α) :
    x ∈ insertLE le a l ↔ x = a ∨ x ∈ l := by
  induction l with
  | nil => simp [insertLE]
  | cons b bs ih =>
    by_cases h : le b a
    · simp only [insertLE, if_pos h, List.mem_cons, ih]
      tauto
    · simp only [insertLE, if_neg h, List.mem_cons]

theorem pairwise_insertLE {α : Type} (le : α → α → Bool)
    (trans : ∀ a b c, le a b → le b c → le a c)
    (total : ∀ a b, le a b || le b a)
    (a : α) (l : List α) (h : l.Pairwise (le · ·)) :
    (insertLE le a l).Pairwise (le · ·) := by
  induction l with
  | nil => simp [insertLE]
  | cons b bs ih =>
    rcases List.pairwise_cons.mp h with ⟨hb, hbs⟩
    by_cases hba : le b a
    · rw [insertLE, if_pos hba]
      refine List.pairwise_cons.mpr ⟨?_, ih hbs⟩
      intro x hx
      rcases (mem_insertLE bs).mp hx with rfl | hxbs
      · exact hba
      · exact hb x hxbs
    · rw [insertLE, if_neg hba]
      have hab : le a b := by
        rcases Bool.or_eq_true_iff.mp (total b a) with hba2 | hab
        · exact absurd hba2 hba
        · exact hab
      refine List.pairwise_cons.mpr ⟨?_, h⟩
      intro x hx
      rcases List.mem_cons.mp hx with rfl | hxbs
      · exact hab
      · exact trans a b x hab (hb x hxbs)

theorem pairwise_foldl_insertLE {α : Type} (le : α → α → Bool)
    (trans : ∀ a b c, le a b → le b c → le a c)
    (total : ∀ a b, le a b || le b a)
    (l : List α) : ∀ acc : List α, acc.Pairwise (le · ·) →
      (l.foldl (fun acc x => insertLE le x acc) acc).Pairwise (le · ·) := by
  induction l with
  | nil => intro acc h; exact h
  | cons x xs ih =>
    intro acc h
    exact ih _ (pairwise_insertLE le trans total x acc h)

theorem pairwise_pySort {α : Type} (le : α → α → Bool)
    (trans : ∀ a b c, le a b → le b c → le a c)
    (total : ∀ a b, le a b || le b a)
    (l : List α) : (pySort le l).Pairwise (le · ·) :=
  pairwise_foldl_insertLE le trans total l [] List.Pairwise.nil

theorem segLE_trans : ∀ a b c : NormSeg, segLE a b → segLE b c → segLE a c := by
  intro a b c hab hbc
  simp only [segLE, decide_eq_true_eq] at *
  exact le_trans hab hbc

theorem segLE_total : ∀ a b : NormSeg, segLE a b || segLE b a := by
  intro a b
  simp only [segLE, Bool.or_eq_true_iff, decide_eq_true_eq]
  exact le_total _ _

theorem pairwise_pySort_segLE (l : List NormSeg) :
    (pySort segLE l).Pairwise fun a b => a.start_time ≤ b.start_time :=
  (pairwise_pySort segLE segLE_trans segLE_total l).imp
    (by intro a b hab; simpa [segLE] using hab)

/-- Claim C1: for every AWS-shaped diarized payload on which the engine
succeeds, the list of normalized segments it renders is sorted by
`start_time` ascending, regardless of the order of the input diarization
segments and regardless of which fallback tier produced the segments. -/
theorem aws_segments_sorted (items : List RawItem) (segs : List SpeakerSeg)
    (out : List NormSeg) (h : awsSegments items segs = .ok out) :
    out.Pairwise fun a b => a.start_time ≤ b.start_time := by
  unfold awsSegments at h
  split at h
  · exact absurd h (by simp)
  · rw [Except.ok.injEq] at h
    subst h
    exact pairwise_pySort_segLE _
  · split at h
    · exact absurd h (by simp)
    · rw [Except.ok.injEq] at h
      subst h
      exact pairwise_pySort_segLE _
    · rw [Except.ok.injEq] at h
      subst h
      exact pairwise_pySort_segLE _

/-- Witness for C1: the engine succeeds on a one-word AWS payload and the
resulting segment list is sorted. -/
theorem aws_segments_sorted_witness :
    awsSegments [itemHi, itemDot] [segSpk0] = .ok [⟨"spk_0", "Hi.", 0, 1⟩] ∧
      ([(⟨"spk_0", "Hi.", 0, 1⟩ : NormSeg)].Pairwise fun a b => a.start_time ≤ b.start_time) :=
  ⟨by decide, aws_segments_sorted [itemHi, itemDot] [segSpk0] _ (by decide)⟩

theorem insertLE_perm {α : Type} (le : α → α → Bool) (a : α) (l : List α) :
    List.Perm (insertLE le a l) (a :: l) := by
  induction l with
  | nil => exact List.Perm.refl _
  | cons b bs ih =>
    by_cases h : le b a
    · rw [insertLE, if_pos h]
      exact (ih.cons b).trans (List.Perm.swap a b bs)
    · rw [insertLE, if_neg h]

theorem foldl_insertLE_perm {α : Type} (le : α → α → Bool) (l : List α) :
    ∀ acc : List α,
      List.Perm (l.foldl (fun acc x => insertLE le x acc) acc) (acc ++ l) := by
  induction l with
  | nil => intro acc; simp
  | cons x xs ih =>
    intro acc
    have h1 := ih (insertLE le x acc)
    have h2 : List.Perm (insertLE le x acc ++ xs) ((x :: acc) ++ xs) :=
      (insertLE_perm le x acc).append_right xs
    have h3 : List.Perm ((x :: acc) ++ xs) (acc ++ x :: xs) := List.perm_middle.symm
    exact (h1.trans h2).trans h3

theorem pySort_perm {α : Type} (le : α → α → Bool) (l : List α) :
    List.Perm (pySort le l) l :=
  foldl_insertLE_perm le l []

theorem pySort_eq_nil_iff {α : Type} (le : α → α → Bool) (l : List α) :
    pySort le l = [] ↔ l = [] := by
  constructor
  · intro h
    have hp := pySort_perm le l
    rw [h] at hp
    exact hp.symm.eq_nil
  · intro h
    subst h
    rfl

/-- Claim C2: on a fault-free evaluation, the engine's output is tier 1's if
tier 1 produced at least one segment, else tier 2's if that produced at least
one, else tier 3's — and the boolean result is `False` exactly when all three
tiers produced zero segments. -/
theorem aws_fallback_chain (items : List RawItem) (segs : List SpeakerSeg)
    (t1 t2 : List NormSeg)
    (h1 : tier1 items segs = .ok t1) (h2 : tier2 items segs = .ok t2) :
    awsSegments items segs =
      .ok (pySort segLE
        (if t1 = [] then (if t2 = [] then tier3 items else t2) else t1)) ∧
      (processAwsSpeakersBool items segs = false ↔
        (t1 = [] ∧ t2 = [] ∧ tier3 items = [])) := by
  have hseg : awsSegments items segs =
      .ok (pySort segLE
        (if t1 = [] then (if t2 = [] then tier3 items else t2) else t1)) := by
    unfold awsSegments
    rw [h1]
    cases t1 with
    | cons n t => simp
    | nil =>
      rw [h2]
      cases t2 with
      | cons n t => simp
      | nil => simp
  refine ⟨hseg, ?_⟩
  unfold processAwsSpeakersBool
  rw [hseg]
  by_cases ht1 : t1 = []
  · by_cases ht2 : t2 = []
    · by_cases ht3 : tier3 items = []
      · simp [ht1, ht2, ht3, pySort]
      · rw [if_pos ht1, if_pos ht2]
        cases hp : pySort segLE (tier3 items) with
        | nil => exact absurd ((pySort_eq_nil_iff _ _).mp hp) ht3
        | cons n t => simp [ht1, ht2, ht3]
    · rw [if_pos ht1, if_neg ht2]
      cases hp : pySort segLE t2 with
      | nil => exact absurd ((pySort_eq_nil_iff _ _).mp hp) ht2
      | cons n t => simp [ht2]
  · rw [if_neg ht1]
    cases hp : pySort segLE t1 with
    | nil => exact absurd ((pySort_eq_nil_iff _ _).mp hp) ht1
    | cons n t => simp [ht1]

/-- Witness for C2: a payload on which tier 1 succeeds; the chain keeps
tier 1's output and the engine reports success. -/
theorem aws_fallback_chain_witness :
    awsSegments [itemHi, itemDot] [segSpk0] =
      .ok (pySort segLE
        (if [(⟨"spk_0", "Hi.", 0, 1⟩ : NormSeg)] = [] then
          (if [(⟨"spk_0", "Hi..", 0, 1⟩ : NormSeg)] = [] then tier3 [itemHi, itemDot]
           else [⟨"spk_0", "Hi..", 0, 1⟩])
         else [⟨"spk_0", "Hi.", 0, 1⟩])) ∧
      (processAwsSpeakersBool [itemHi, itemDot] [segSpk0] = false ↔
        ([(⟨"spk_0", "Hi.", 0, 1⟩ : NormSeg)] = [] ∧
          [(⟨"spk_0", "Hi..", 0, 1⟩ : NormSeg)] = [] ∧ tier3 [itemHi, itemDot] = [])) :=
  aws_fallback_chain [itemHi, itemDot] [segSpk0] _ _ (by decide) (by decide)

/-- Claim C5: classification proceeds in the claimed order — reject empty or
non-mapping input before classification; Azure when `recognizedPhrases` or
`combinedRecognizedPhrases` is present; else GCP when `results` is a list;
else AWS-diarized when `results` is a mapping with `speaker_labels` and
`items`, AWS-simple when it has `transcripts`; otherwise unrecognized. -/
theorem classify_eq_claim (d : PyVal) : classify d = classifyClaim d := by
  unfold classify classifyClaim
  by_cases h1 : d.truthy
  · by_cases h2 : d.isDict
    · by_cases h3 : (d.hasKey "recognizedPhrases" || d.hasKey "combinedRecognizedPhrases")
      · simp [h1, h2, h3]
      · simp only [h1, h2, h3, Bool.and_self, Bool.not_true, Bool.false_eq_true, if_false,
          if_true]
        cases hr : d.get "results" with
        | none => simp
        | some r => cases r <;> simp
    · simp [h1, h2]
  · simp [h1]

/-- Claim C9: for a GCP result where word-level timestamps are requested and
the `words` array is shorter than the whitespace-token count of the
transcript, the flattener emits the flat transcript for that result instead
of per-word lines. -/
theorem gcp_short_words_flat (r : GcpResult) (alt : GcpAlt) (rest : List GcpAlt)
    (ws : List GcpWord)
    (halt : r.alternatives = alt :: rest) (hw : alt.words = some ws)
    (hshort : ws.length < (pySplit alt.transcript).length) :
    gcpResultLines true r = [alt.transcript] := by
  unfold gcpResultLines
  rw [halt]
  simp [hw, hshort]

/-- Witness for C9: transcript `"Hi"` with an empty `words` array renders the
single flat line `"Hi"`, both per result and at the flattener's boundary. -/
theorem gcp_short_words_flat_witness :
    gcpResultLines true ⟨[⟨"Hi", some []⟩]⟩ = ["Hi"] ∧
      processGcp [⟨[⟨"Hi", some []⟩]⟩] true = some ["Hi"] :=
  ⟨gcp_short_words_flat ⟨[⟨"Hi", some []⟩]⟩ ⟨"Hi", some []⟩ [] [] rfl rfl (by decide),
    by decide⟩

theorem azure_foldl_acc (its : Bool) (ps : List AzurePhrase)
    (hnb : ∀ p ∈ ps, p.recognitionStatus = some "Success" → p.nBest ≠ []) :
    ∀ acc : List String,
      ps.foldl
        (fun acc p =>
          if p.recognitionStatus = some "Success" then
            match p.nBest with
            | [] => acc
            | nb :: _ => acc ++ [azurePhraseLine its p nb]
          else acc) acc
      = acc ++ (ps.filter fun p => p.recognitionStatus = some "Success").map
          (fun p => azurePhraseLine its p (p.nBest.headD {})) := by
  induction ps with
  | nil => intro acc; simp
  | cons p tl ih =>
    intro acc
    by_cases hs : p.recognitionStatus = some "Success"
    · have hnbp := hnb p (by simp) hs
      cases hnbL : p.nBest with
      | nil => exact absurd hnbL hnbp
      | cons nb nbs =>
        simp only [List.foldl_cons, hs, if_pos, hnbL]
        rw [ih (fun q hq => hnb q (by simp [hq]))]
        simp [List.filter_cons, hs, hnbL]
    · simp only [List.foldl_cons, hs, if_neg]
      rw [ih (fun q hq => hnb q (by simp [hq]))]
      simp [List.filter_cons, hs]

/-- Claim C8: for an Azure payload without `combinedRecognizedPhrases` (and
whose successful phrases each carry an `nBest` entry), the flattener keeps
exactly the phrases whose `recognitionStatus` is `"Success"`, renders each
from its first `nBest` candidate's display text (converting `offset` and
`duration` from 100-nanosecond ticks to seconds by dividing by 10,000,000
when timestamps are requested), and fails precisely when no phrase
succeeded. -/
theorem azure_flattener_spec (d : AzureData) (its : Bool)
    (hc : d.combinedRecognizedPhrases = [])
    (hnb : ∀ p ∈ d.recognizedPhrases,
      p.recognitionStatus = some "Success" → p.nBest ≠ []) :
    processAzure d its =
      (match azureLinesClaim d its with
       | [] => none
       | l :: ls => some (l :: ls)) ∧
    (processAzure d its = none ↔
      (d.recognizedPhrases.filter fun p =>
        p.recognitionStatus = some "Success") = []) := by
  have hlines : azureLines d its = azureLinesClaim d its := by
    unfold azureLines azureLinesClaim
    rw [hc]
    cases hp : d.recognizedPhrases with
    | nil => simp
    | cons p tl =>
      simp only [List.isEmpty_nil, List.isEmpty_cons, Bool.not_false, Bool.not_true,
        if_true, if_false]
      rw [← hp]
      rw [azure_foldl_acc its d.recognizedPhrases hnb []]
      simp
  constructor
  · unfold processAzure
    rw [hlines]
  · unfold processAzure
    rw [hlines]
    unfold azureLinesClaim
    cases hf : (d.recognizedPhrases.filter fun p =>
        p.recognitionStatus = some "Success") with
    | nil => simp
    | cons q ql => simp

/-- Witness for C8: one successful phrase (offset 5,000,000 ticks = 0.5 s,
duration 10,000,000 ticks = 1 s) and one failed phrase yield exactly the
successful phrase's line; the all-failed payload yields a failure. -/
theorem azure_flattener_spec_witness :
    processAzure
        { recognizedPhrases :=
            [{ recognitionStatus := some "Success",
               nBest := [{ display := "Hello there." }],
               offset := 5000000, duration := 10000000 },
             { recognitionStatus := some "Error" }] } true =
      (match azureLinesClaim
          { recognizedPhrases :=
              [{ recognitionStatus := some "Success",
                 nBest := [{ display := "Hello there." }],
                 offset := 5000000, duration := 10000000 },
               { recognitionStatus := some "Error" }] } true with
       | [] => none
       | l :: ls => some (l :: ls)) ∧
    (processAzure
        { recognizedPhrases :=
            [{ recognitionStatus := some "Success",
               nBest := [{ display := "Hello there." }],
               offset := 5000000, duration := 10000000 },
             { recognitionStatus := some "Error" }] } true = none ↔
      (List.filter (fun p => p.recognitionStatus = some "Success")
        [({ recognitionStatus := some "Success",
            nBest := [{ display := "Hello there." }],
            offset := 5000000, duration := 10000000 } : AzurePhrase),
         { recognitionStatus := some "Error" }] = [])) :=
  azure_flattener_spec _ true rfl (by decide)

/-- Counterexample to claim C7: a diarized AWS segment starting at 3661.5 s
(more than one hour) renders with timestamp prefix `[61:01.500]` — an
unbounded minutes field, not the claimed `HH:MM:SS`/`HH:MM:SS.mmm` shape
(which the checker accepts for the format the other renderers use). -/
theorem aws_diarized_time_not_hms :
    renderSegLine true ⟨"spk_0", "Hi.", 7323 / 2, 3662⟩ = "[61:01.500] spk_0: Hi." ∧
    awsSpeakerTimeStr (7323 / 2) = "[61:01.500]" ∧
    claimedTimestampFormat "61:01.500" = false ∧
    fmtHMS (7323 / 2) = "01:01:01.500" ∧
    claimedTimestampFormat "01:01:01.500" = true :=
  ⟨by decide, by decide, by decide, by decide, by decide⟩

theorem qmod_decomp (a : ℚ) (k : ℤ) (r : ℚ) (ha : 0 < a) (hr0 : 0 ≤ r) (hr : r < a) :
    Int.floor ((a * k + r) / a) = k ∧ qmod (a * k + r) a = r := by
  have hfl : Int.floor ((a * k + r) / a) = k := by
    have h1 : (a * k + r) / a = r / a + k := by
      field_simp
      ring
    rw [h1, Int.floor_add_int]
    have h2 : Int.floor (r / a) = 0 := by
      rw [Int.floor_eq_zero_iff]
      exact Set.mem_Ico.mpr ⟨div_nonneg hr0 (le_of_lt ha), (div_lt_one ha).mpr hr⟩
    rw [h2, zero_add]
  refine ⟨hfl, ?_⟩
  unfold qmod
  rw [hfl]
  ring

/-- Claim C7 as amended: the `HH:MM:SS.mmm` formatter shared by the
simple-AWS, Azure, and GCP renderers decomposes a duration of `h` hours,
`m` minutes and `s` seconds into the correct fields with no wraparound at or
beyond one hour; the AWS diarized renderer instead emits `[MM:SS.mmm]` with
an unbounded total-minutes field (also without wraparound, but with no hours
field). -/
theorem timestamp_formats (h m : ℕ) (s : ℚ) (hm : m < 60) (hs0 : 0 ≤ s) (hs : s < 60) :
    fmtHMS (3600 * h + 60 * m + s) = padInt2 h ++ ":" ++ padInt2 m ++ ":" ++ fmt063 s ∧
    awsSpeakerTimeStr (3600 * h + 60 * m + s) =
      "[" ++ padInt2 (60 * h + m) ++ ":" ++ fmt063 s ++ "]" := by
  have hr1 : (0 : ℚ) ≤ 60 * m + s := by positivity
  have hr2 : (60 : ℚ) * m + s < 3600 := by
    have hmq : (m : ℚ) ≤ 59 := by exact_mod_cast Nat.le_of_lt_succ hm
    nlinarith
  have hd1 := qmod_decomp 3600 (h : ℤ) (60 * m + s) (by norm_num) hr1 hr2
  have hd2 := qmod_decomp 60 (m : ℤ) s (by norm_num) hs0 hs
  have hd3 := qmod_decomp 60 ((60 * h + m : ℕ) : ℤ) s (by norm_num) hs0 hs
  have ht1 : (3600 : ℚ) * ((h : ℤ) : ℚ) + (60 * m + s) = 3600 * h + 60 * m + s := by
    push_cast
    ring
  have ht3 : (60 : ℚ) * (((60 * h + m : ℕ) : ℤ) : ℚ) + s = 3600 * h + 60 * m + s := by
    push_cast
    ring
  rw [ht1] at hd1
  rw [ht3] at hd3
  have hm2 : (60 : ℚ) * ((m : ℤ) : ℚ) + s = 60 * m + s := by
    push_cast
    ring
  rw [hm2] at hd2
  constructor
  · unfold fmtHMS
    rw [hd1.1, hd1.2, hd2.1, hd3.2]
  · unfold awsSpeakerTimeStr
    rw [hd3.1, hd3.2]
    norm_cast

/-- Witness for the amended C7: one hour, one minute, one and a half seconds
formats as `01:01:01.500` in the `HH:MM:SS.mmm` renderers and as
`[61:01.500]` in the AWS diarized renderer. -/
theorem timestamp_formats_witness :
    (1 : ℕ) < 60 ∧ (0 : ℚ) ≤ 3 / 2 ∧ (3 / 2 : ℚ) < 60 ∧
    (fmtHMS (3600 * (1 : ℕ) + 60 * (1 : ℕ) + (3 / 2 : ℚ)) =
        padInt2 (1 : ℕ) ++ ":" ++ padInt2 (1 : ℕ) ++ ":" ++ fmt063 (3 / 2) ∧
      awsSpeakerTimeStr (3600 * (1 : ℕ) + 60 * (1 : ℕ) + (3 / 2 : ℚ)) =
        "[" ++ padInt2 (60 * (1 : ℕ) + 1) ++ ":" ++ fmt063 (3 / 2) ++ "]") :=
  ⟨by decide, by decide, by decide,
    timestamp_formats 1 1 (3 / 2) (by decide) (by decide) (by decide)⟩

theorem t2Flush_inv (st : T2State) (sp : String) (q : ℚ)
    (hstart : st.startT = some q) (hacc : ∀ n ∈ st.acc, n.start_time = q) :
    (t2Flush st sp).startT = some q ∧ ∀ n ∈ (t2Flush st sp).acc, n.start_time = q := by
  unfold t2Flush
  cases hsp : st.speaker with
  | none => exact ⟨hstart, hacc⟩
  | some sp2 =>
    dsimp only
    by_cases hc : sp2 ≠ sp ∧ st.elems ≠ []
    · rw [if_pos hc]
      refine ⟨hstart, ?_⟩
      intro n hn
      rcases List.mem_append.mp hn with h1 | h2
      · exact hacc n h1
      · rw [List.mem_singleton.mp h2]
        simp [hstart]
    · rw [if_neg hc]
      exact ⟨hstart, hacc⟩

theorem t2Seg_inv (items : List RawItem) (seg : SpeakerSeg) (st st' : T2State) (q : ℚ)
    (hst : t2Seg items st seg = .ok st')
    (hstart : st.startT = some q)
    (hacc : ∀ n ∈ st.acc, n.start_time = q) :
    st'.startT = some q ∧ ∀ n ∈ st'.acc, n.start_time = q := by
  have hfl := t2Flush_inv st seg.speaker_label q hstart hacc
  unfold t2Seg at hst
  rw [hfl.1] at hst
  cases ht : t2Items items seg.start_time seg.end_time 0 items
      (t2Flush st seg.speaker_label).elems with
  | error e =>
    rw [ht] at hst
    exact absurd hst (by simp)
  | ok elems =>
    rw [ht] at hst
    rw [Except.ok.injEq] at hst
    subst hst
    exact ⟨rfl, hfl.2⟩

theorem t2Flush_empty (sp : String) : t2Flush {} sp = ({} : T2State) := rfl

theorem t2Loop_inv (items : List RawItem) (q : ℚ) (segs : List SpeakerSeg) :
    ∀ st st' : T2State,
      t2Loop items st segs = .ok st' →
      st.startT = some q → (∀ n ∈ st.acc, n.start_time = q) →
      st'.startT = some q ∧ ∀ n ∈ st'.acc, n.start_time = q := by
  induction segs with
  | nil =>
    intro st st' h hstart hacc
    unfold t2Loop at h
    rw [Except.ok.injEq] at h
    subst h
    exact ⟨hstart, hacc⟩
  | cons seg rest ih =>
    intro st st' h hstart hacc
    unfold t2Loop at h
    cases hst : t2Seg items st seg with
    | error e =>
      rw [hst] at h
      exact absurd h (by simp)
    | ok st2 =>
      rw [hst] at h
      have h2 := t2Seg_inv items seg st st2 q hst hstart hacc
      exact ih st2 st' h h2.1 h2.2

theorem t2Seg_init (items : List RawItem) (s0 : SpeakerSeg) (st' : T2State)
    (h : t2Seg items {} s0 = .ok st') :
    st'.startT = some s0.start_time ∧ ∀ n ∈ st'.acc, n.start_time = s0.start_time := by
  unfold t2Seg at h
  rw [t2Flush_empty] at h
  cases ht : t2Items items s0.start_time s0.end_time 0 items
      ({} : T2State).elems with
  | error e =>
    rw [ht] at h
    exact absurd h (by simp)
  | ok elems =>
    rw [ht] at h
    rw [Except.ok.injEq] at h
    subst h
    exact ⟨rfl, by intro n hn; exact absurd hn (List.not_mem_nil n)⟩

/-- Claim C10: once tier 2 runs, the running start time is assigned only when
unset and never reset after a flush, so every segment tier 2 emits —
including the final flush — carries the start time of the first diarization
segment of the input list. -/
theorem tier2_start_time_first (items : List RawItem) (s0 : SpeakerSeg)
    (rest : List SpeakerSeg) (out : List NormSeg) (n : NormSeg)
    (h : tier2 items (s0 :: rest) = .ok out) (hn : n ∈ out) :
    n.start_time = s0.start_time := by
  unfold tier2 at h
  cases hl : t2Loop items {} (s0 :: rest) with
  | error e =>
    rw [hl] at h
    exact absurd h (by simp)
  | ok st =>
    rw [hl] at h
    dsimp only at h
    have hsplit : ∃ st1, t2Seg items {} s0 = .ok st1 ∧ t2Loop items st1 rest = .ok st := by
      unfold t2Loop at hl
      cases hs1 : t2Seg items ({} : T2State) s0 with
      | error e =>
        rw [hs1] at hl
        exact absurd hl (by simp)
      | ok st1 =>
        rw [hs1] at hl
        exact ⟨st1, rfl, hl⟩
    rcases hsplit with ⟨st1, hs1, hl2⟩
    have hinit := t2Seg_init items s0 st1 hs1
    have hinv := t2Loop_inv items s0.start_time rest st1 st hl2 hinit.1 hinit.2
    cases hsp : st.speaker with
    | none =>
      rw [hsp] at h
      rw [Except.ok.injEq] at h
      subst h
      exact hinv.2 n hn
    | some sp =>
      rw [hsp] at h
      cases hel : st.elems with
      | nil =>
        rw [hel] at h
        rw [Except.ok.injEq] at h
        subst h
        exact hinv.2 n hn
      | cons e es =>
        rw [hel] at h
        rw [Except.ok.injEq] at h
        subst h
        rcases List.mem_append.mp hn with h1 | h2
        · exact hinv.2 n h1
        · rw [List.mem_singleton.mp h2]
          simp [hinv.1]

/-- Witness for C10: two speakers, the second speaking at 1-1.5 s, yet the
flushed second segment carries start time 0 — the first segment's start. -/
theorem tier2_start_time_first_witness :
    tier2 [itemHi, itemYo] [segSpk0, segSpk1] =
      .ok [⟨"spk_0", "Hi.", 0, 1⟩, ⟨"spk_1", "Yo.", 0, 2⟩] ∧
    (⟨"spk_1", "Yo.", 0, 2⟩ : NormSeg) ∈
      [(⟨"spk_0", "Hi.", 0, 1⟩ : NormSeg), ⟨"spk_1", "Yo.", 0, 2⟩] ∧
    (⟨"spk_1", "Yo.", 0, 2⟩ : NormSeg).start_time = segSpk0.start_time :=
  ⟨by decide, by decide,
    tier2_start_time_first [itemHi, itemYo] segSpk0 [segSpk1]
      [⟨"spk_0", "Hi.", 0, 1⟩, ⟨"spk_1", "Yo.", 0, 2⟩] ⟨"spk_1", "Yo.", 0, 2⟩
      (by decide) (by decide)⟩

/-- Counterexample to claim C6: failures of different kinds — an
unrecognized-format payload at the dispatcher, an Azure payload with no
successful phrase (an EmptyResult), and an AWS diarized payload whose
punctuation item lacks `alternatives` (a caught fault, i.e. a
MalformedPayload) — all return the same unstructured boolean `False`; the
value handed to the caller carries no classification distinguishing them. -/
theorem engine_failure_unstructured :
    classify (.pdict [("foo", .pnum 1)]) = .unrecognized ∧
    processAzureBool { recognizedPhrases := [{ recognitionStatus := some "Error" }] } true
      = false ∧
    awsSegments [itemHi, itemNoAltPunct] [segSpk0] = .error () ∧
    processAwsSpeakersBool [itemHi, itemNoAltPunct] [segSpk0] = false ∧
    processAzureBool { recognizedPhrases := [{ recognitionStatus := some "Error" }] } true
      = processAwsSpeakersBool [itemHi, itemNoAltPunct] [segSpk0] :=
  ⟨by decide, by decide, by decide, by decide, by decide⟩

/-- Claim C6 as amended: on failure the engine returns the unstructured
boolean `False`; in particular every fault raised inside the AWS reconciler
is caught at the function boundary and converted to that same `False` rather
than propagating to the caller. -/
theorem aws_fault_returns_false (items : List RawItem) (segs : List SpeakerSeg) (e : Unit)
    (h : awsSegments items segs = .error e) :
    processAwsSpeakersBool items segs = false := by
  unfold processAwsSpeakersBool
  rw [h]

/-- Witness for the amended C6: the raising payload returns `False`. -/
theorem aws_fault_returns_false_witness :
    awsSegments [itemHi, itemNoAltPunct] [segSpk0] = .error () ∧
      processAwsSpeakersBool [itemHi, itemNoAltPunct] [segSpk0] = false :=
  ⟨by decide, aws_fault_returns_false [itemHi, itemNoAltPunct] [segSpk0] () (by decide)⟩

theorem map_insertLE {α β : Type} (f : α → β) (leA : α → α → Bool) (leB : β → β → Bool)
    (hle : ∀ a b, leA a b = leB (f a) (f b)) (a : α) (l : List α) :
    (insertLE leA a l).map f = insertLE leB (f a) (l.map f) := by
  induction l with
  | nil => rfl
  | cons b bs ih =>
    by_cases h : leA b a
    · rw [insertLE, if_pos h, List.map_cons, ih, List.map_cons, insertLE, if_pos]
      rw [← hle]
      exact h
    · rw [insertLE, if_neg h, List.map_cons, List.map_cons, insertLE, if_neg]
      rw [← hle]
      exact h

theorem map_pySort {α β : Type} (f : α → β) (leA : α → α → Bool) (leB : β → β → Bool)
    (hle : ∀ a b, leA a b = leB (f a) (f b)) (l : List α) :
    (pySort leA l).map f = pySort leB (l.map f) := by
  suffices h : ∀ acc : List α,
      (l.foldl (fun acc x => insertLE leA x acc) acc).map f
        = (l.map f).foldl (fun acc x => insertLE leB x acc) (acc.map f) by
    exact h []
  induction l with
  | nil => intro acc; rfl
  | cons x xs ih =>
    intro acc
    rw [List.foldl_cons, List.map_cons, List.foldl_cons, ih, map_insertLE f leA leB hle]

theorem wordPairsInSeg_map_snd (items : List RawItem) (s e : ℚ) :
    (wordPairsInSeg items s e).map Prod.snd = segmentItems items s e := by
  unfold wordPairsInSeg segmentItems
  rw [show (fun p : ℕ × RawItem => wordInRange s e p.2)
      = (wordInRange s e) ∘ Prod.snd from rfl]
  rw [← List.filter_map]
  rw [List.enum_eq_enumFrom, List.enumFrom_map_snd]

theorem sortedWordPairs_map_snd (items : List RawItem) (s e : ℚ) :
    (sortedWordPairs items s e).map Prod.snd = sortedSegmentItems items s e := by
  unfold sortedWordPairs sortedSegmentItems
  rw [map_pySort Prod.snd pairLE itemLE (fun a b => rfl)]
  rw [wordPairsInSeg_map_snd]

theorem indexOf_of_pair_mem (items : List RawItem) (s e : ℚ) (hnd : items.Nodup)
    (p : ℕ × RawItem) (hp : p ∈ sortedWordPairs items s e) :
    items.indexOf p.2 = p.1 := by
  have hp2 : p ∈ wordPairsInSeg items s e := ((pySort_perm pairLE _).mem_iff).mp hp
  have hp3 : p ∈ items.enum := List.mem_of_mem_filter hp2
  have hget : items[p.1]? = some p.2 := List.mem_enum_iff_getElem?.mp hp3
  rcases List.getElem?_eq_some.mp hget with ⟨hlt, hval⟩
  have := List.indexOf_getElem hnd p.1 hlt
  rw [hval] at this
  exact this

theorem finalTextElements_eq_claim (items : List RawItem) (pairs : List (ℕ × RawItem))
    (hidx : ∀ p ∈ pairs, items.indexOf p.2 = p.1) :
    finalTextElements items (pairs.map Prod.snd) = finalTextElementsClaim items pairs := by
  induction pairs with
  | nil => rfl
  | cons p ps ih =>
    obtain ⟨i, it⟩ := p
    rw [List.map_cons]
    unfold finalTextElements finalTextElementsClaim
    have hi : items.indexOf it = i := hidx (i, it) (List.mem_cons_self _ _)
    cases halts : it.alternatives with
    | nil =>
      exact ih (fun q hq => hidx q (List.mem_cons_of_mem _ hq))
    | cons a tl =>
      rw [hi, ih (fun q hq => hidx q (List.mem_cons_of_mem _ hq))]

/-- Counterexample to claim C3: with the word item `"hi"` (0-0.4 s) appearing
twice followed by the punctuation `","`, the code looks the second occurrence
up with `items.index(...)`, finds the first occurrence, sees no punctuation
after it, and renders `"Hi hi."` — while the claimed rule (lookahead at each
word's own position) yields `"Hi hi,"`. -/
theorem tier1_lookahead_counterexample :
    tier1Segment [itemLoHi, itemLoHi, itemComma] segSpk0
      = .ok (some ⟨"spk_0", "Hi hi.", 0, 1⟩) ∧
    tier1SegmentClaim [itemLoHi, itemLoHi, itemComma] segSpk0
      = .ok (some ⟨"spk_0", "Hi hi,", 0, 1⟩) ∧
    tier1Segment [itemLoHi, itemLoHi, itemComma] segSpk0
      ≠ tier1SegmentClaim [itemLoHi, itemLoHi, itemComma] segSpk0 :=
  ⟨by decide, by decide, by decide⟩

/-- Claim C3 as amended: provided the raw items are pairwise distinct, tier 1
behaves per the claim for every diarization segment — it collects exactly the
word-type items whose interval lies inside the segment's, sorts them by start
time, appends each word's immediately-following raw punctuation with no
separating space, joins with single spaces, collapses whitespace, uppercases
the first character, and appends a period when the final character is not one
of `.!?,;:-`.  (With duplicate items, the `items.index` lookup finds the
first equal item, so the lookahead happens at the first occurrence instead.) -/
theorem tier1_matches_claim_of_nodup (items : List RawItem) (seg : SpeakerSeg)
    (hnd : items.Nodup) :
    tier1Segment items seg = tier1SegmentClaim items seg := by
  unfold tier1Segment tier1SegmentClaim
  rw [← sortedWordPairs_map_snd items seg.start_time seg.end_time]
  rw [finalTextElements_eq_claim items _
    (fun p hp => indexOf_of_pair_mem items seg.start_time seg.end_time hnd p hp)]

/-- Witness for the amended C3: on a duplicate-free payload the code's tier-1
segment equals the claimed one, and evaluates to the expected segment. -/
theorem tier1_matches_claim_witness :
    tier1Segment [itemHi, itemDot] segSpk0 = tier1SegmentClaim [itemHi, itemDot] segSpk0 ∧
    tier1Segment [itemHi, itemDot] segSpk0 = .ok (some ⟨"spk_0", "Hi.", 0, 1⟩) :=
  ⟨tier1_matches_claim_of_nodup [itemHi, itemDot] segSpk0 (by decide), by decide⟩

/-- Counterexample to claim C4: the word `"yo"` (1-1.5 s) appears twice,
immediately followed by the punctuation `","`; both occurrences are emitted,
but the comma is merged into neither token (the `items.index` lookup for the
second occurrence lands on the first), so the rendered text `"Yo yo."`
contains no comma at all. -/
theorem punct_merge_counterexample :
    awsSegments [itemYo, itemYo, itemComma] [segSpk0Wide]
      = .ok [⟨"spk_0", "Yo yo.", 0, 2⟩] ∧
    finalTextElements [itemYo, itemYo, itemComma]
        (sortedSegmentItems [itemYo, itemYo, itemComma] 0 2) = .ok ["yo", "yo"] ∧
    ("Yo yo.".data.contains ',') = false :=
  ⟨by decide, by decide, by decide⟩

theorem finalTextElements_token_mem (items : List RawItem) (l : List RawItem)
    (es : List String) (w : RawItem) (a : WordAlt) (tl : List WordAlt)
    (r : Option String)
    (h : finalTextElements items l = .ok es) (hw : w ∈ l)
    (halts : w.alternatives = a :: tl)
    (hpa : punctAfter items (items.indexOf w) = .ok r) :
    tokenText a.content r ∈ es := by
  induction l generalizing es with
  | nil => exact absurd hw (List.not_mem_nil w)
  | cons it rest ih =>
    rcases List.mem_cons.mp hw with rfl | hw2
    · unfold finalTextElements at h
      rw [halts, hpa] at h
      cases hrec : finalTextElements items rest with
      | error e =>
        rw [hrec] at h
        exact absurd h (by simp)
      | ok toks =>
        rw [hrec] at h
        rw [Except.ok.injEq] at h
        subst h
        exact List.mem_cons_self _ _
    · unfold finalTextElements at h
      cases halts2 : it.alternatives with
      | nil =>
        rw [halts2] at h
        exact ih es h hw2
      | cons b bt =>
        rw [halts2] at h
        cases hpa2 : punctAfter items (items.indexOf it) with
        | error e =>
          rw [hpa2] at h
          exact absurd h (by simp)
        | ok p2 =>
          rw [hpa2] at h
          cases hrec : finalTextElements items rest with
          | error e =>
            rw [hrec] at h
            exact absurd h (by simp)
          | ok toks =>
            rw [hrec] at h
            rw [Except.ok.injEq] at h
            subst h
            exact List.mem_cons_of_mem _ (ih toks hrec hw2)

/-- Claim C4 as amended: provided the raw items are pairwise distinct, every
punctuation item immediately following a word item collected for a segment is
merged into that word's emitted tier-1 token with no inserted space — in
particular the `"Hi"`/`"."` example renders as `"Hi."`.  (With duplicate
word items, the punctuation following an occurrence other than the first is
not merged, since `items.index` finds the first equal item.) -/
theorem punct_merged_into_word (items : List RawItem) (seg : SpeakerSeg)
    (i : ℕ) (w p : RawItem) (a : WordAlt) (atl : List WordAlt)
    (pa : WordAlt) (ptl : List WordAlt) (es : List String)
    (hnd : items.Nodup)
    (hw : items[i]? = some w) (hp : items[i + 1]? = some p)
    (hwseg : wordInRange seg.start_time seg.end_time w = true)
    (ha : w.alternatives = a :: atl)
    (hpp : isPunct p = true) (hpa : p.alternatives = pa :: ptl)
    (hok : finalTextElements items
        (sortedSegmentItems items seg.start_time seg.end_time) = .ok es) :
    a.content ++ pa.content ∈ es := by
  rcases List.getElem?_eq_some.mp hw with ⟨hlt, hval⟩
  have hidx : items.indexOf w = i := by
    have := List.indexOf_getElem hnd i hlt
    rw [hval] at this
    exact this
  have hmem : w ∈ sortedSegmentItems items seg.start_time seg.end_time := by
    have hwi : w ∈ items := by
      rw [← hval]
      exact List.getElem_mem hlt
    have : w ∈ segmentItems items seg.start_time seg.end_time :=
      List.mem_filter.mpr ⟨hwi, hwseg⟩
    exact ((pySort_perm itemLE _).mem_iff).mpr this
  have hpunct : punctAfter items (items.indexOf w) = .ok (some pa.content) := by
    rw [hidx]
    unfold punctAfter
    rw [hp]
    dsimp only
    rw [if_pos hpp, hpa]
  exact finalTextElements_token_mem items _ es w a atl (some pa.content) hok hmem ha hpunct

/-- Witness for the amended C4: the `"Hi"` 0-0.4 s word followed by `"."`
yields the token `"Hi."` and the rendered segment text `"Hi."`. -/
theorem punct_merged_into_word_witness :
    ("Hi" ++ "." ∈ ["Hi."]) ∧
    awsSegments [itemHi, itemDot] [segSpk0] = .ok [⟨"spk_0", "Hi.", 0, 1⟩] :=
  ⟨punct_merged_into_word [itemHi, itemDot] segSpk0 0 itemHi itemDot
      ⟨none, "Hi"⟩ [] ⟨none, "."⟩ [] ["Hi."]
      (by decide) (by decide) (by decide) (by decide) (by decide) (by decide) (by decide)
      (by decide),
    by decide⟩

end Speecher
